import Mathlib

/-!
Shallow embedding of qc_grader/util.py: gate-cost estimation over a gate
decomposition tree, the memoizing cache keyed on (name, num_qubits),
circuit-level aggregation, and the exception-swallowing job utilities.

Gates are modelled as a mutual inductive family: a gate has a name, a qubit
arity, a kind (which of the isinstance branches of gate_cost it falls in),
and a decomposition that is either absent (gate.definition is None in the
source) or a finite list of sub-gates (the gate components of the entries of
gate.definition.data). GateList is an inlined list type so that all
recursions stay structural; GateList.toList bridges to ordinary lists.
-/

namespace QcGrader

/-- The kind of a gate, as distinguished by the isinstance checks in
gate_cost: UGate, U3Gate, CXGate, or any other (generic/composite) gate. -/
inductive GateKind where
  | ugate
  | u3gate
  | cxgate
  | generic
deriving DecidableEq

mutual

/-- A gate: name, qubit arity, kind, decomposition. -/
inductive Gate where
  | mk : String → Nat → GateKind → GateDef → Gate

/-- gate.definition: None, or a circuit whose data lists the sub-gates. -/
inductive GateDef where
  | absent : GateDef
  | present : GateList → GateDef

/-- The sub-gate list of a decomposition. -/
inductive GateList where
  | nil : GateList
  | cons : Gate → GateList → GateList

end

/-- The ordinary list carried by a GateList. -/
def GateList.toList : GateList → List Gate
  | .nil => []
  | .cons g gs => g :: gs.toList

def Gate.name : Gate → String
  | .mk n _ _ _ => n

def Gate.num_qubits : Gate → Nat
  | .mk _ q _ _ => q

def Gate.kind : Gate → GateKind
  | .mk _ _ k _ => k

def Gate.definition : Gate → GateDef
  | .mk _ _ _ d => d

/-- gate_key(gate) = (gate.name, gate.num_qubits). -/
def gate_key (g : Gate) : String × Nat :=
  (g.name, g.num_qubits)

mutual

/-- The body of gate_cost, without memoization: 1 for a UGate, 1 for a
U3Gate, 10 for a CXGate, otherwise the sum of the recursive costs of the
sub-gates listed in gate.definition.data; none models the AttributeError
raised when gate.definition is None. -/
def gate_cost_pure : Gate → Option Nat
  | .mk _ _ .ugate _ => some 1
  | .mk _ _ .u3gate _ => some 1
  | .mk _ _ .cxgate _ => some 10
  | .mk _ _ .generic .absent => none
  | .mk _ _ .generic (.present gs) => gate_cost_list gs

/-- sum(map(gate_cost, gs)) evaluated left to right; any failure aborts. -/
def gate_cost_list : GateList → Option Nat
  | .nil => some 0
  | .cons g gs =>
    match gate_cost_pure g, gate_cost_list gs with
    | some v, some s => some (v + s)
    | _, _ => none

end

/-- sum(map(gate_cost, l)) over an ordinary list of gates. -/
def gate_cost_sum : List Gate → Option Nat
  | [] => some 0
  | g :: l =>
    match gate_cost_pure g, gate_cost_sum l with
    | some v, some s => some (v + s)
    | _, _ => none

/-- The memoization cache attached to gate_cost by the cached decorator: a
mapping from (name, num_qubits) keys to previously stored costs. Newer
stores are consed to the front, so lookup returns the latest store for a
key, exactly as assignment into a Python dict does. -/
abbrev Cache : Type := List ((String × Nat) × Nat)

/-- key in f.__cache / f.__cache[key] read access. -/
def cacheLookup : Cache → String × Nat → Option Nat
  | [], _ => none
  | (k, v) :: rest, key => if key = k then some v else cacheLookup rest key

/-- f.__cache[key] = v: a store, shadowing any earlier entry for key. -/
def cacheInsert (c : Cache) (key : String × Nat) (v : Nat) : Cache :=
  (key, v) :: c

mutual

/-- The decorated gate_cost with the cache passed explicitly: look up
gate_key(gate) in the cache and return the cached value if present;
otherwise run the body (recursive calls go through the decorated function,
threading the cache left to right), store the computed value under the key,
and return it. none models the AttributeError on a None definition. -/
def gate_cost_c : Cache → Gate → Option (Nat × Cache)
  | c, .mk n q k d =>
    match cacheLookup c (n, q) with
    | some v => some (v, c)
    | none =>
      match k, d with
      | .ugate, _ => some (1, cacheInsert c (n, q) 1)
      | .u3gate, _ => some (1, cacheInsert c (n, q) 1)
      | .cxgate, _ => some (10, cacheInsert c (n, q) 10)
      | .generic, .absent => none
      | .generic, .present gs =>
        match gate_cost_listc c gs with
        | none => none
        | some (s, c1) => some (s, cacheInsert c1 (n, q) s)

/-- sum(map(gate_cost, gs)) with the memoized gate_cost: the cache is
threaded through the sub-gates left to right. -/
def gate_cost_listc : Cache → GateList → Option (Nat × Cache)
  | c, .nil => some (0, c)
  | c, .cons g gs =>
    match gate_cost_c c g with
    | none => none
    | some (v, c1) =>
      match gate_cost_listc c1 gs with
      | none => none
      | some (s, c2) => some (v + s, c2)

end

/-- An entry of QuantumCircuit.data: the instruction component of the
(instruction, qargs, cargs) triple. isinstance(g, Gate) holds exactly for
the gate constructor; barriers and measurements are non-Gate instructions. -/
inductive Instruction where
  | gate : Gate → Instruction
  | barrier : Nat → Instruction
  | measure : Instruction

/-- A quantum circuit: its instruction list (circuit.data, keeping only the
instruction component of each entry, which is all the util functions use). -/
structure QuantumCircuit where
  data : List Instruction

/-- The isinstance(g, Gate) filter: the gate carried by a gate entry. -/
def Instruction.toGate : Instruction → Option Gate
  | .gate g => some g
  | .barrier _ => none
  | .measure => none

/-- sum(map(gate_cost, l)) over an ordinary list of gates with the
memoized gate_cost: the cache is threaded through the entries left to
right, exactly as the lazy map forced by sum evaluates them. -/
def gate_cost_sumc : Cache → List Gate → Option (Nat × Cache)
  | c, [] => some (0, c)
  | c, g :: l =>
    match gate_cost_c c g with
    | none => none
    | some (v, c1) =>
      match gate_cost_sumc c1 l with
      | none => none
      | some (s, c2) => some (v + s, c2)

/-- The list of values returned by the successive memoized gate_cost calls
on a list of gates, threading the cache left to right. -/
def gate_costs_threaded : Cache → List Gate → Option (List Nat × Cache)
  | c, [] => some ([], c)
  | c, g :: l =>
    match gate_cost_c c g with
    | none => none
    | some (v, c1) =>
      match gate_costs_threaded c1 l with
      | none => none
      | some (vs, c2) => some (v :: vs, c2)

/-- compute_cost(circuit) = sum(map(gate_cost, (g for g, _, _ in
circuit.data if isinstance(g, Gate)))), where gate_cost is the decorated,
memoized function: the process-wide cache is passed in explicitly and the
updated cache is returned alongside the total. -/
def compute_cost (c : Cache) (qc : QuantumCircuit) : Option (Nat × Cache) :=
  gate_cost_sumc c (qc.data.filterMap Instruction.toGate)

/-- isinstance(g, CXGate) for a circuit.data entry. -/
def Instruction.is_cx : Instruction → Bool
  | .gate (.mk _ _ .cxgate _) => true
  | _ => false

/-- has_cx(circuit) = any(isinstance(g, CXGate) for g, _, _ in circuit.data). -/
def has_cx (qc : QuantumCircuit) : Bool :=
  qc.data.any Instruction.is_cx

/-- get_job(job_id): the outcome of the external retrieve_job call is passed
in as an Except value; the try/except returns the job on success and None
when any exception is raised. -/
def get_job {J E : Type} : Except E J → Option J
  | .ok j => some j
  | .error _ => none

/-- get_job_urls(job): the outcomes of the two external URL fetches are
passed in as Except values; the try/except returns
(download_url, result_url) when both succeed and (None, None) when any
exception is raised along the way. -/
def get_job_urls {E : Type} :
    Except E String → Except E String → Option String × Option String
  | .error _, _ => (none, none)
  | .ok _, .error _ => (none, none)
  | .ok d, .ok r => (some d, some r)

mutual

/-- A bound on the recursion depth gate_cost needs on a gate: the height of
its decomposition tree, counting both gate and list steps. -/
def gateSize : Gate → Nat
  | .mk _ _ _ .absent => 1
  | .mk _ _ _ (.present gs) => gateListSize gs + 1

def gateListSize : GateList → Nat
  | .nil => 1
  | .cons g gs => gateSize g + gateListSize gs + 1

end

mutual

/-- gate_cost_pure run with a recursion-depth budget: some r when the
computation finishes within the budget (r being its result), none when the
budget is exhausted first. -/
def gate_cost_fuel : Nat → Gate → Option (Option Nat)
  | 0, _ => none
  | _ + 1, .mk _ _ .ugate _ => some (some 1)
  | _ + 1, .mk _ _ .u3gate _ => some (some 1)
  | _ + 1, .mk _ _ .cxgate _ => some (some 10)
  | _ + 1, .mk _ _ .generic .absent => some none
  | n + 1, .mk _ _ .generic (.present gs) => gate_cost_list_fuel n gs

def gate_cost_list_fuel : Nat → GateList → Option (Option Nat)
  | 0, _ => none
  | _ + 1, .nil => some (some 0)
  | n + 1, .cons g gs =>
    match gate_cost_fuel n g, gate_cost_list_fuel n gs with
    | some rv, some rs =>
      some (match rv, rs with
            | some v, some s => some (v + s)
            | _, _ => none)
    | _, _ => none

end

/-! ### Basic lemmas about the embedded operations -/

theorem gate_key_mk (n : String) (q : Nat) (k : GateKind) (d : GateDef) :
    gate_key (Gate.mk n q k d) = (n, q) := rfl

theorem cacheLookup_insert (c : Cache) (k key : String × Nat) (v : Nat) :
    cacheLookup (cacheInsert c key v) k = if k = key then some v else cacheLookup c k := by
  simp [cacheInsert, cacheLookup]

theorem cacheLookup_insert_self (c : Cache) (key : String × Nat) (v : Nat) :
    cacheLookup (cacheInsert c key v) key = some v := by
  simp [cacheLookup_insert]

theorem gate_cost_list_eq_sum : ∀ gs : GateList, gate_cost_list gs = gate_cost_sum gs.toList
  | .nil => rfl
  | .cons g gs => by
    rw [gate_cost_list, GateList.toList, gate_cost_sum, gate_cost_list_eq_sum gs]

theorem gate_cost_sum_eq_mapM (l : List Gate) :
    gate_cost_sum l = Option.map List.sum (l.mapM gate_cost_pure) := by
  induction l with
  | nil => rfl
  | cons g l ih =>
    have hm : (g :: l).mapM gate_cost_pure =
        (gate_cost_pure g).bind (fun v => (l.mapM gate_cost_pure).bind
          (fun vs => some (v :: vs))) := by
      rw [List.mapM_cons]
      rfl
    rw [gate_cost_sum, ih, hm]
    cases hv : gate_cost_pure g with
    | none => rfl
    | some v =>
      cases hs : l.mapM gate_cost_pure with
      | none => rfl
      | some vs => simp

theorem gate_cost_sumc_eq_threaded : ∀ (c : Cache) (l : List Gate),
    gate_cost_sumc c l
      = Option.map (fun p => (p.1.sum, p.2)) (gate_costs_threaded c l) := by
  intro c l
  induction l generalizing c with
  | nil => rfl
  | cons g l ih =>
    rw [gate_cost_sumc, gate_costs_threaded]
    cases hg : gate_cost_c c g with
    | none => rfl
    | some p =>
      obtain ⟨v, c1⟩ := p
      dsimp only
      rw [ih c1]
      cases ht : gate_costs_threaded c1 l with
      | none => rfl
      | some p2 =>
        obtain ⟨vs, c2⟩ := p2
        simp

theorem gate_cost_c_hit (c : Cache) (g : Gate) (v : Nat)
    (h : cacheLookup c (gate_key g) = some v) :
    gate_cost_c c g = some (v, c) := by
  cases g with
  | mk n q k d =>
    rw [gate_key_mk] at h
    cases k <;> cases d <;> rw [gate_cost_c, h]

theorem gate_cost_c_stores (c : Cache) (g : Gate) (v : Nat) (c' : Cache)
    (h : gate_cost_c c g = some (v, c')) :
    cacheLookup c' (gate_key g) = some v := by
  cases g with
  | mk n q k d =>
    rw [gate_key_mk]
    cases hl : cacheLookup c (n, q) with
    | some w =>
      cases k <;> cases d <;> rw [gate_cost_c, hl] at h <;>
        · simp at h
          obtain ⟨h1, h2⟩ := h
          rw [← h2, ← h1]
          exact hl
    | none =>
      cases k with
      | ugate =>
        cases d <;> rw [gate_cost_c, hl] at h <;>
          · simp at h
            obtain ⟨h1, h2⟩ := h
            rw [← h2, ← h1]
            exact cacheLookup_insert_self c (n, q) 1
      | u3gate =>
        cases d <;> rw [gate_cost_c, hl] at h <;>
          · simp at h
            obtain ⟨h1, h2⟩ := h
            rw [← h2, ← h1]
            exact cacheLookup_insert_self c (n, q) 1
      | cxgate =>
        cases d <;> rw [gate_cost_c, hl] at h <;>
          · simp at h
            obtain ⟨h1, h2⟩ := h
            rw [← h2, ← h1]
            exact cacheLookup_insert_self c (n, q) 10
      | generic =>
        cases d with
        | absent => rw [gate_cost_c, hl] at h; simp at h
        | present gs =>
          rw [gate_cost_c, hl] at h
          cases hlist : gate_cost_listc c gs with
          | none => rw [hlist] at h; simp at h
          | some p =>
            rw [hlist] at h
            simp at h
            obtain ⟨h1, h2⟩ := h
            rw [← h2, ← h1]
            exact cacheLookup_insert_self p.2 (n, q) p.1

theorem cache_key_ne (c : Cache) (key k2 : String × Nat) (w : Nat)
    (hk : cacheLookup c key = some w) (hl : cacheLookup c k2 = none) :
    key ≠ k2 := by
  intro he
  rw [he, hl] at hk
  exact Option.noConfusion hk

mutual

theorem gate_cost_c_preserves : ∀ (c : Cache) (g : Gate) (v : Nat) (c' : Cache),
    gate_cost_c c g = some (v, c') →
    ∀ (key : String × Nat) (w : Nat), cacheLookup c key = some w → cacheLookup c' key = some w
  | c, .mk n q kd d, v, c', h, key, w, hk => by
    cases hl : cacheLookup c (n, q) with
    | some u =>
      have heq : c' = c := by
        cases kd <;> cases d <;> rw [gate_cost_c, hl] at h <;> simp at h <;> exact h.2.symm
      rw [heq]
      exact hk
    | none =>
      have hne : key ≠ (n, q) := cache_key_ne c key (n, q) w hk hl
      cases kd with
      | ugate =>
        rw [gate_cost_c, hl] at h
        simp at h
        rw [← h.2, cacheLookup_insert, if_neg hne]
        exact hk
      | u3gate =>
        rw [gate_cost_c, hl] at h
        simp at h
        rw [← h.2, cacheLookup_insert, if_neg hne]
        exact hk
      | cxgate =>
        rw [gate_cost_c, hl] at h
        simp at h
        rw [← h.2, cacheLookup_insert, if_neg hne]
        exact hk
      | generic =>
        cases d with
        | absent => rw [gate_cost_c, hl] at h; exact Option.noConfusion h
        | present gs =>
          rw [gate_cost_c, hl] at h
          cases hlist : gate_cost_listc c gs with
          | none => rw [hlist] at h; exact Option.noConfusion h
          | some p =>
            rw [hlist] at h
            simp at h
            have hmid : cacheLookup p.2 key = some w :=
              gate_cost_listc_preserves c gs p.1 p.2 (by rw [hlist]) key w hk
            rw [← h.2, cacheLookup_insert, if_neg hne]
            exact hmid

theorem gate_cost_listc_preserves : ∀ (c : Cache) (gs : GateList) (v : Nat) (c' : Cache),
    gate_cost_listc c gs = some (v, c') →
    ∀ (key : String × Nat) (w : Nat), cacheLookup c key = some w → cacheLookup c' key = some w
  | c, .nil, v, c', h, key, w, hk => by
    rw [gate_cost_listc] at h
    simp at h
    rw [← h.2]
    exact hk
  | c, .cons g gs, v, c', h, key, w, hk => by
    rw [gate_cost_listc] at h
    cases hg : gate_cost_c c g with
    | none => rw [hg] at h; exact Option.noConfusion h
    | some p =>
      obtain ⟨u, c1⟩ := p
      rw [hg] at h
      simp at h
      cases hrest : gate_cost_listc c1 gs with
      | none => rw [hrest] at h; simp at h
      | some p2 =>
        obtain ⟨s, c2⟩ := p2
        rw [hrest] at h
        simp at h
        have h1 : cacheLookup c1 key = some w :=
          gate_cost_c_preserves c g u c1 hg key w hk
        have h2 : cacheLookup c2 key = some w :=
          gate_cost_listc_preserves c1 gs s c2 hrest key w h1
        rw [← h.2]
        exact h2

end

theorem gate_cost_sum_none : ∀ (l : List Gate) (g : Gate), g ∈ l →
    gate_cost_pure g = none → gate_cost_sum l = none := by
  intro l
  induction l with
  | nil => intro g hg _; exact absurd hg (List.not_mem_nil g)
  | cons a l ih =>
    intro g hg hn
    rw [gate_cost_sum]
    rcases List.mem_cons.mp hg with he | hm
    · rw [← he, hn]
    · rw [ih g hm hn]
      cases gate_cost_pure a <;> rfl

theorem gate_cost_sum_some : ∀ (l : List Gate),
    (∀ g ∈ l, gate_cost_pure g ≠ none) →
    gate_cost_sum l = some ((l.map fun g => (gate_cost_pure g).getD 0).sum) := by
  intro l
  induction l with
  | nil => intro _; rfl
  | cons a l ih =>
    intro h
    have ha := h a (List.mem_cons_self a l)
    cases hv : gate_cost_pure a with
    | none => exact absurd hv ha
    | some v =>
      rw [gate_cost_sum, hv, ih (fun g hg => h g (List.mem_cons_of_mem a hg))]
      simp [hv]

theorem gate_cost_sum_perm (l1 l2 : List Gate) (hp : l1.Perm l2) :
    gate_cost_sum l1 = gate_cost_sum l2 := by
  by_cases hex : ∃ g ∈ l1, gate_cost_pure g = none
  · obtain ⟨g, hg, hn⟩ := hex
    rw [gate_cost_sum_none l1 g hg hn, gate_cost_sum_none l2 g (hp.mem_iff.mp hg) hn]
  · push_neg at hex
    rw [gate_cost_sum_some l1 hex,
        gate_cost_sum_some l2 (fun g hg => hex g (hp.mem_iff.mpr hg))]
    congr 1
    exact (hp.map _).sum_eq

mutual

theorem gate_cost_fuel_adequate : ∀ (g : Gate) (n : Nat), gateSize g ≤ n →
    gate_cost_fuel n g = some (gate_cost_pure g)
  | .mk nm q kd d, n, h => by
    cases n with
    | zero =>
      exact absurd h (by cases d <;> simp [gateSize, gateListSize])
    | succ m =>
      cases kd <;> cases d <;> rw [gate_cost_fuel, gate_cost_pure]
      case generic.present gs =>
        have hle : gateListSize gs ≤ m := by
          rw [gateSize] at h
          omega
        exact gate_cost_list_fuel_adequate gs m hle

theorem gate_cost_list_fuel_adequate : ∀ (gs : GateList) (n : Nat), gateListSize gs ≤ n →
    gate_cost_list_fuel n gs = some (gate_cost_list gs)
  | .nil, n, h => by
    cases n with
    | zero => exact absurd h (by simp [gateListSize])
    | succ m => rfl
  | .cons g gs, n, h => by
    cases n with
    | zero => exact absurd h (by simp [gateListSize, gateSize])
    | succ m =>
      rw [gateListSize] at h
      have hg : gateSize g ≤ m := by omega
      have hgs : gateListSize gs ≤ m := by omega
      rw [gate_cost_list_fuel,
          gate_cost_fuel_adequate g m hg,
          gate_cost_list_fuel_adequate gs m hgs,
          gate_cost_list]

end

end QcGrader

/-! ### Claims -/

namespace QcGrader

/-- C1: gate_cost follows the three-branch algorithm: a UGate costs 1, a
U3Gate costs 1, a CXGate costs 10, and any other gate costs the sum of the
recursive gate_cost of each sub-gate in its decomposition; in particular a
composite decomposing into [UGate, U3Gate, CXGate] costs 12. -/
theorem C1_gate_cost_three_branches :
    (∀ (n : String) (q : Nat) (d : GateDef),
      gate_cost_pure (Gate.mk n q GateKind.ugate d) = some 1)
  ∧ (∀ (n : String) (q : Nat) (d : GateDef),
      gate_cost_pure (Gate.mk n q GateKind.u3gate d) = some 1)
  ∧ (∀ (n : String) (q : Nat) (d : GateDef),
      gate_cost_pure (Gate.mk n q GateKind.cxgate d) = some 10)
  ∧ (∀ (n : String) (q : Nat) (gs : GateList),
      gate_cost_pure (Gate.mk n q GateKind.generic (GateDef.present gs))
        = Option.map List.sum (gs.toList.mapM gate_cost_pure))
  ∧ gate_cost_pure (Gate.mk "comp" 2 GateKind.generic (GateDef.present
      (GateList.cons (Gate.mk "u" 1 GateKind.ugate GateDef.absent)
        (GateList.cons (Gate.mk "u3" 1 GateKind.u3gate GateDef.absent)
          (GateList.cons (Gate.mk "cx" 2 GateKind.cxgate GateDef.absent)
            GateList.nil))))) = some 12 := by
  refine ⟨fun n q d => rfl, fun n q d => rfl, fun n q d => rfl, fun n q gs => ?_, rfl⟩
  rw [gate_cost_pure, gate_cost_list_eq_sum, gate_cost_sum_eq_mapM]

/-- C2 counterexample: compute_cost, which maps the memoized gate_cost over
the circuit's gate entries threading the process-wide cache, is not
order-independent. The two circuits below have permuted instruction lists
(first conjunct); both hold two gates with the shared key ("x", 1), one
decomposing into a UGate (cost 1) and one into a CXGate (cost 10). From an
empty cache the first order yields a total of 2 (the UGate-decomposed gate
is computed first and its cached 1 is served to the other), the reversed
order yields 20, so the totals differ. -/
theorem C2_counterexample :
    List.Perm
      [Instruction.gate (Gate.mk "x" 1 GateKind.generic (GateDef.present
         (GateList.cons (Gate.mk "u" 1 GateKind.ugate GateDef.absent) GateList.nil))),
       Instruction.gate (Gate.mk "x" 1 GateKind.generic (GateDef.present
         (GateList.cons (Gate.mk "cx" 2 GateKind.cxgate GateDef.absent) GateList.nil)))]
      [Instruction.gate (Gate.mk "x" 1 GateKind.generic (GateDef.present
         (GateList.cons (Gate.mk "cx" 2 GateKind.cxgate GateDef.absent) GateList.nil))),
       Instruction.gate (Gate.mk "x" 1 GateKind.generic (GateDef.present
         (GateList.cons (Gate.mk "u" 1 GateKind.ugate GateDef.absent) GateList.nil)))]
  ∧ Option.map Prod.fst (compute_cost [] (QuantumCircuit.mk
      [Instruction.gate (Gate.mk "x" 1 GateKind.generic (GateDef.present
         (GateList.cons (Gate.mk "u" 1 GateKind.ugate GateDef.absent) GateList.nil))),
       Instruction.gate (Gate.mk "x" 1 GateKind.generic (GateDef.present
         (GateList.cons (Gate.mk "cx" 2 GateKind.cxgate GateDef.absent) GateList.nil)))]))
      = some 2
  ∧ Option.map Prod.fst (compute_cost [] (QuantumCircuit.mk
      [Instruction.gate (Gate.mk "x" 1 GateKind.generic (GateDef.present
         (GateList.cons (Gate.mk "cx" 2 GateKind.cxgate GateDef.absent) GateList.nil))),
       Instruction.gate (Gate.mk "x" 1 GateKind.generic (GateDef.present
         (GateList.cons (Gate.mk "u" 1 GateKind.ugate GateDef.absent) GateList.nil)))]))
      = some 20
  ∧ (some (2 : Nat) : Option Nat) ≠ some 20 :=
  ⟨List.Perm.swap
     (Instruction.gate (Gate.mk "x" 1 GateKind.generic (GateDef.present
        (GateList.cons (Gate.mk "cx" 2 GateKind.cxgate GateDef.absent) GateList.nil))))
     (Instruction.gate (Gate.mk "x" 1 GateKind.generic (GateDef.present
        (GateList.cons (Gate.mk "u" 1 GateKind.ugate GateDef.absent) GateList.nil)))) [],
   rfl, rfl, by decide⟩

/-- C2 amended: compute_cost maps the memoized gate_cost over exactly the
Gate-typed entries of the circuit's instruction list, threading the
process-wide cache left to right, and returns the sum of the values those
memoized calls return (first conjunct); barrier and measurement directive
entries are excluded and transparent — only the gate entries determine the
result (second conjunct). The sum of the per-gate costs taken as pure
three-branch values is invariant under permuting the instruction list
(third conjunct); the memoized total itself is cache- and order-dependent
when gates share a (name, arity) key, per the counterexample. -/
theorem C2_compute_cost_memoized :
    (∀ (c : Cache) (qc : QuantumCircuit),
      compute_cost c qc
        = Option.map (fun p => (p.1.sum, p.2))
            (gate_costs_threaded c (qc.data.filterMap Instruction.toGate)))
  ∧ (∀ (c : Cache) (d1 d2 : List Instruction),
      d1.filterMap Instruction.toGate = d2.filterMap Instruction.toGate →
      compute_cost c (QuantumCircuit.mk d1) = compute_cost c (QuantumCircuit.mk d2))
  ∧ (∀ d1 d2 : List Instruction, d1.Perm d2 →
      gate_cost_sum (d1.filterMap Instruction.toGate)
        = gate_cost_sum (d2.filterMap Instruction.toGate)) := by
  refine ⟨?_, ?_, ?_⟩
  · intro c qc
    rw [compute_cost, gate_cost_sumc_eq_threaded]
  · intro c d1 d2 h
    rw [compute_cost, compute_cost]
    simp only [h]
  · intro d1 d2 hp
    exact gate_cost_sum_perm _ _ (hp.filterMap Instruction.toGate)

theorem C2_witness :
    compute_cost [] (QuantumCircuit.mk
      [Instruction.gate (Gate.mk "u" 1 GateKind.ugate GateDef.absent),
       Instruction.barrier 3, Instruction.measure])
      = compute_cost [] (QuantumCircuit.mk
      [Instruction.gate (Gate.mk "u" 1 GateKind.ugate GateDef.absent)])
  ∧ gate_cost_sum
      (([Instruction.gate (Gate.mk "u" 1 GateKind.ugate GateDef.absent),
         Instruction.gate (Gate.mk "cx" 2 GateKind.cxgate GateDef.absent)]).filterMap
        Instruction.toGate)
      = gate_cost_sum
      (([Instruction.gate (Gate.mk "cx" 2 GateKind.cxgate GateDef.absent),
         Instruction.gate (Gate.mk "u" 1 GateKind.ugate GateDef.absent)]).filterMap
        Instruction.toGate) :=
  ⟨C2_compute_cost_memoized.2.1 []
     [Instruction.gate (Gate.mk "u" 1 GateKind.ugate GateDef.absent),
      Instruction.barrier 3, Instruction.measure]
     [Instruction.gate (Gate.mk "u" 1 GateKind.ugate GateDef.absent)] rfl,
   C2_compute_cost_memoized.2.2
     [Instruction.gate (Gate.mk "u" 1 GateKind.ugate GateDef.absent),
      Instruction.gate (Gate.mk "cx" 2 GateKind.cxgate GateDef.absent)]
     [Instruction.gate (Gate.mk "cx" 2 GateKind.cxgate GateDef.absent),
      Instruction.gate (Gate.mk "u" 1 GateKind.ugate GateDef.absent)]
     (List.Perm.swap
       (Instruction.gate (Gate.mk "cx" 2 GateKind.cxgate GateDef.absent))
       (Instruction.gate (Gate.mk "u" 1 GateKind.ugate GateDef.absent)) [])⟩


theorem is_cx_eq_true_iff (i : Instruction) :
    Instruction.is_cx i = true ↔
      ∃ (n : String) (q : Nat) (d : GateDef),
        i = Instruction.gate (Gate.mk n q GateKind.cxgate d) := by
  cases i with
  | gate g =>
    cases g with
    | mk n q k d =>
      cases k <;> simp [Instruction.is_cx]
  | barrier b => simp [Instruction.is_cx]
  | measure => simp [Instruction.is_cx]

/-- C3: has_cx returns true iff at least one entry of the circuit's
instruction list is a CXGate; in particular it is false when every entry is
a gate of one of the recognized single-qubit primitive kinds. -/
theorem C3_has_cx_iff :
    (∀ qc : QuantumCircuit,
      (has_cx qc = true ↔
        ∃ i ∈ qc.data, ∃ (n : String) (q : Nat) (d : GateDef),
          i = Instruction.gate (Gate.mk n q GateKind.cxgate d)))
  ∧ (∀ qc : QuantumCircuit,
      (∀ i ∈ qc.data, ∃ (n : String) (d : GateDef) (k : GateKind),
        i = Instruction.gate (Gate.mk n 1 k d)
          ∧ (k = GateKind.ugate ∨ k = GateKind.u3gate)) →
      has_cx qc = false) := by
  constructor
  · intro qc
    rw [has_cx, List.any_eq_true]
    constructor
    · rintro ⟨i, hi, hcx⟩
      exact ⟨i, hi, (is_cx_eq_true_iff i).mp hcx⟩
    · rintro ⟨i, hi, hshape⟩
      exact ⟨i, hi, (is_cx_eq_true_iff i).mpr hshape⟩
  · intro qc h
    rw [has_cx, List.any_eq_false]
    intro i hi
    obtain ⟨n, d, k, hik, hk⟩ := h i hi
    rcases hk with hu | hu <;> rw [hik, hu] <;> simp [Instruction.is_cx]

theorem C3_witness :
    has_cx (QuantumCircuit.mk
      [Instruction.gate (Gate.mk "u" 1 GateKind.ugate GateDef.absent),
       Instruction.gate (Gate.mk "u3" 1 GateKind.u3gate GateDef.absent)]) = false := by
  refine C3_has_cx_iff.2 _ ?_
  intro i hi
  rcases List.mem_cons.mp hi with he | hi2
  · exact ⟨"u", GateDef.absent, GateKind.ugate, he, Or.inl rfl⟩
  · rcases List.mem_cons.mp hi2 with he | hi3
    · exact ⟨"u3", GateDef.absent, GateKind.u3gate, he, Or.inr rfl⟩
    · exact absurd hi3 (List.not_mem_nil i)


/-- C4: memoization of gate_cost: a call whose key (name, arity) is in the
cache returns the cached value with the cache untouched; a completed call
leaves its result stored under its key; and a second call on any gate with
the same name and arity returns that identical value without changing the
cache again. -/
theorem C4_memoization :
    (∀ (c : Cache) (g : Gate) (v : Nat),
      cacheLookup c (gate_key g) = some v → gate_cost_c c g = some (v, c))
  ∧ (∀ (c : Cache) (g : Gate) (v : Nat) (c' : Cache),
      gate_cost_c c g = some (v, c') → cacheLookup c' (gate_key g) = some v)
  ∧ (∀ (c : Cache) (g : Gate) (v : Nat) (c' : Cache) (g2 : Gate),
      gate_cost_c c g = some (v, c') → gate_key g2 = gate_key g →
      gate_cost_c c' g2 = some (v, c')) := by
  refine ⟨gate_cost_c_hit, gate_cost_c_stores, ?_⟩
  intro c g v c' g2 h hkey
  refine gate_cost_c_hit c' g2 v ?_
  rw [hkey]
  exact gate_cost_c_stores c g v c' h

theorem C4_witness :
    gate_cost_c [(("u", 1), 1)] (Gate.mk "u" 1 GateKind.ugate GateDef.absent)
      = some (1, [(("u", 1), 1)]) :=
  C4_memoization.2.2 [] (Gate.mk "u" 1 GateKind.ugate GateDef.absent) 1
    [(("u", 1), 1)] (Gate.mk "u" 1 GateKind.ugate GateDef.absent) rfl rfl

/-- C5: the cache is keyed purely on (name, arity): once a cost is stored
for a key by one gate, gate_cost on any other gate with the same name and
arity returns that stored cost, even if its decomposition differs. -/
theorem C5_cache_keyed_on_name_arity :
    ∀ (c : Cache) (g1 g2 : Gate) (v : Nat) (c' : Cache),
      gate_key g1 = gate_key g2 →
      gate_cost_c c g1 = some (v, c') →
      gate_cost_c c' g2 = some (v, c') := by
  intro c g1 g2 v c' hkey h
  refine gate_cost_c_hit c' g2 v ?_
  rw [← hkey]
  exact gate_cost_c_stores c g1 v c' h

theorem C5_witness :
    gate_cost_c [(("x", 1), 1), (("u", 1), 1)]
      (Gate.mk "x" 1 GateKind.generic (GateDef.present
        (GateList.cons (Gate.mk "cx" 2 GateKind.cxgate GateDef.absent) GateList.nil)))
      = some (1, [(("x", 1), 1), (("u", 1), 1)]) :=
  C5_cache_keyed_on_name_arity []
    (Gate.mk "x" 1 GateKind.generic (GateDef.present
      (GateList.cons (Gate.mk "u" 1 GateKind.ugate GateDef.absent) GateList.nil)))
    (Gate.mk "x" 1 GateKind.generic (GateDef.present
      (GateList.cons (Gate.mk "cx" 2 GateKind.cxgate GateDef.absent) GateList.nil)))
    1 [(("x", 1), 1), (("u", 1), 1)] rfl rfl


/-- C6 counterexample: the cache is not append-only in the stated sense.
For the gate named "a" with arity 1 decomposing into a UGate that is also
named "a" with arity 1 followed by a UGate named "b": during the single
call gate_cost on that gate, the inner recursive call stores ("a", 1) -> 1
(second and third conjuncts: the state after the recursion over the
decomposition maps ("a", 1) to 1), and the enclosing store then overwrites
that existing entry to ("a", 1) -> 2 (fourth and fifth conjuncts). -/
theorem C6_counterexample :
    gate_cost_c []
      (Gate.mk "a" 1 GateKind.ugate GateDef.absent) = some (1, [(("a", 1), 1)])
  ∧ gate_cost_listc []
      (GateList.cons (Gate.mk "a" 1 GateKind.ugate GateDef.absent)
        (GateList.cons (Gate.mk "b" 1 GateKind.ugate GateDef.absent) GateList.nil))
      = some (2, [(("b", 1), 1), (("a", 1), 1)])
  ∧ cacheLookup [(("b", 1), 1), (("a", 1), 1)] ("a", 1) = some 1
  ∧ gate_cost_c []
      (Gate.mk "a" 1 GateKind.generic (GateDef.present
        (GateList.cons (Gate.mk "a" 1 GateKind.ugate GateDef.absent)
          (GateList.cons (Gate.mk "b" 1 GateKind.ugate GateDef.absent) GateList.nil))))
      = some (2, [(("a", 1), 2), (("b", 1), 1), (("a", 1), 1)])
  ∧ cacheLookup [(("a", 1), 2), (("b", 1), 1), (("a", 1), 1)] ("a", 1) = some 2 :=
  ⟨rfl, rfl, rfl, rfl, rfl⟩

/-- C6 amended: the cache never loses an entry that exists when a call to
gate_cost starts: the final cache of a successful call maps every key that
was present at entry to its unchanged value, so calls only add entries
relative to their entry state. (An entry created during the call's own
recursion can still be overwritten by the enclosing store when a gate's
decomposition reuses its own (name, arity) key.) -/
theorem C6_cache_monotone :
    ∀ (c : Cache) (g : Gate) (v : Nat) (c' : Cache),
      gate_cost_c c g = some (v, c') →
      ∀ (key : String × Nat) (w : Nat),
        cacheLookup c key = some w → cacheLookup c' key = some w :=
  gate_cost_c_preserves

theorem C6_cache_monotone_witness :
    cacheLookup [(("u", 1), 1), (("z", 9), 7)] ("z", 9) = some 7 :=
  C6_cache_monotone [(("z", 9), 7)] (Gate.mk "u" 1 GateKind.ugate GateDef.absent)
    1 [(("u", 1), 1), (("z", 9), 7)] rfl ("z", 9) 7 rfl

/-- C7 counterexample: a non-primitive gate whose decomposition is present
but empty does not fail: gate_cost returns 0 for it. -/
theorem C7_counterexample :
    gate_cost_pure (Gate.mk "e" 1 GateKind.generic (GateDef.present GateList.nil))
      = some 0 := rfl

/-- C7 amended: for a gate that is none of the recognized primitive kinds,
gate_cost fails (no value, modelling the low-level attribute/null-data
error) exactly when the decomposition is absent; with a present but empty
decomposition it returns 0. The memoized call fails the same way when the
key is not already cached. -/
theorem C7_absent_definition_fails :
    (∀ (n : String) (q : Nat),
      gate_cost_pure (Gate.mk n q GateKind.generic GateDef.absent) = none)
  ∧ (∀ (n : String) (q : Nat),
      gate_cost_pure (Gate.mk n q GateKind.generic (GateDef.present GateList.nil))
        = some 0)
  ∧ (∀ (c : Cache) (n : String) (q : Nat),
      cacheLookup c (n, q) = none →
      gate_cost_c c (Gate.mk n q GateKind.generic GateDef.absent) = none) := by
  refine ⟨fun n q => rfl, fun n q => rfl, ?_⟩
  intro c n q hl
  rw [gate_cost_c, hl]

theorem C7_witness :
    gate_cost_c [] (Gate.mk "e" 1 GateKind.generic GateDef.absent) = none :=
  C7_absent_definition_fails.2.2 [] "e" 1 rfl


/-- C8: the job utilities swallow every exception: when the underlying
retrieval raises, get_job returns None and get_job_urls returns
(None, None); on success they return the retrieved values. -/
theorem C8_exceptions_swallowed :
    (∀ (J E : Type) (e : E), @get_job J E (Except.error e) = none)
  ∧ (∀ (J E : Type) (j : J), @get_job J E (Except.ok j) = some j)
  ∧ (∀ (E : Type) (e : E) (r : Except E String),
      get_job_urls (Except.error e) r = (none, none))
  ∧ (∀ (E : Type) (d : String) (e : E),
      get_job_urls (Except.ok d) (Except.error e) = (none, none)) := by
  refine ⟨fun J E e => rfl, fun J E j => rfl, ?_, fun E d e => rfl⟩
  intro E e r
  cases r <;> rfl

/-- C9: the recursive gate_cost computation terminates on every gate of the
(finite, acyclic by construction) decomposition tree: a recursion-depth
budget of gateSize g suffices for the fueled computation to finish and
agree with gate_cost. -/
theorem C9_gate_cost_terminates :
    ∀ (g : Gate) (n : Nat), gateSize g ≤ n →
      gate_cost_fuel n g = some (gate_cost_pure g) :=
  gate_cost_fuel_adequate

theorem C9_witness :
    gate_cost_fuel 1 (Gate.mk "u" 1 GateKind.ugate GateDef.absent)
      = some (some 1) :=
  C9_gate_cost_terminates (Gate.mk "u" 1 GateKind.ugate GateDef.absent) 1
    (by decide)

/-- C10: get_job_urls always returns exactly a pair: (download, result) with
both present on success, and (None, None) on any failure; no third component
and no mixed pair ever occurs. -/
theorem C10_get_job_urls_pair :
    (∀ (E : Type) (d r : String),
      @get_job_urls E (Except.ok d) (Except.ok r) = (some d, some r))
  ∧ (∀ (E : Type) (x y : Except E String),
      get_job_urls x y = (none, none)
        ∨ ∃ (u v : String), get_job_urls x y = (some u, some v)) := by
  refine ⟨fun E d r => rfl, ?_⟩
  intro E x y
  cases x with
  | error e => exact Or.inl rfl
  | ok d =>
    cases y with
    | error e => exact Or.inl rfl
    | ok r => exact Or.inr ⟨d, r, rfl⟩


end QcGrader
